import Mathlib

/-!
Verification of the matching core of the `subtitlematcher` Go package
(title normalization, LCS similarity scoring, best-match selection, and the
match/rename engine).

Modelling conventions:
* Go strings are byte sequences; they are modelled as `List Nat` (each entry
  a UTF-8 byte value).  All patterns removed by `normalizeTitle` are ASCII
  except the full-width question mark, which is modelled by its UTF-8 byte
  sequence `[239, 188, 159]`.  Unicode-aware case folding and space trimming
  of bytes above `0x7f` is outside the modelled domain; the byte-level model
  agrees with the Go functions on ASCII data and on the multi-byte patterns
  that the source manipulates explicitly.
* `float64` scores are modelled as exact rationals `ℚ`; the scores produced
  by the engine are quotients of small naturals.
* Filesystem paths use the Unix separator, matching `path/filepath` on the
  platform the tool targets; `filepath.Clean` is modelled by the standard
  element-stack form of its lexical simplification algorithm.
* The `os.Rename` collaborator is modelled as a state-threading oracle
  `renameFn : σ → path → path → σ × Option ε`; `some e` is a failed call
  with error `e`, `none` a successful one.  `Match` threads the state, so a
  run in which the final state equals the initial one for every oracle is a
  run that performed no rename call.
-/

/-- Byte class of the bracketed-tag regular expression `[A-Za-z0-9_-]`. -/
def isTagByte (b : Nat) : Bool :=
  (65 ≤ b && b ≤ 90) || (97 ≤ b && b ≤ 122) || (48 ≤ b && b ≤ 57) || b == 95 || b == 45

/-- ASCII whitespace trimmed by `strings.TrimSpace`: TAB LF VT FF CR SPACE. -/
def isTrimSpace (b : Nat) : Bool :=
  b == 32 || (9 ≤ b && b ≤ 13)

/-- Whitespace class `\s` of Go regular expressions: TAB LF FF CR SPACE
(vertical tab is not included in `\s`). -/
def isPerlSpace (b : Nat) : Bool :=
  b == 9 || b == 10 || b == 12 || b == 13 || b == 32

/-- After an opening bracket and a first tag byte, consume further tag bytes
until a closing bracket; return the remainder of the string after the
bracketed tag, or `none` if the tag is not closed. -/
def tagClose : List Nat → Option (List Nat)
  | [] => none
  | b :: t => if b == 93 then some t else if isTagByte b then tagClose t else none

/-- Match the regular expression `\[[A-Za-z0-9_-]+\]` at the head of the
string; return the remainder after the match. -/
def matchTag : List Nat → Option (List Nat)
  | 91 :: b :: t => if isTagByte b then tagClose t else none
  | _ => none

/-- Remove every (leftmost, non-overlapping) match of `\[[A-Za-z0-9_-]+\]`,
as `re.ReplaceAllString(title, "")` does.  The fuel argument is an upper
bound on the number of bytes still to be scanned; `stripTags` supplies the
length of the string, which suffices because every step consumes at least
one byte. -/
def stripTagsAux : Nat → List Nat → List Nat
  | _, [] => []
  | 0, s => s
  | fuel + 1, b :: t =>
    match matchTag (b :: t) with
    | some rest => stripTagsAux fuel rest
    | none => b :: stripTagsAux fuel t

/-- Removal of all bracketed identifier tags `[...]` from a title. -/
def stripTags (s : List Nat) : List Nat :=
  stripTagsAux s.length s

/-- Fuelled body of `strings.ReplaceAll`: replace each leftmost,
non-overlapping occurrence of `p` with `r`, continuing after the replaced
segment.  `p` is always non-empty here, so length-many units of fuel
suffice. -/
def replaceAllAux (p r : List Nat) : Nat → List Nat → List Nat
  | _, [] => []
  | 0, s => s
  | fuel + 1, b :: t =>
    if p.isPrefixOf (b :: t) then r ++ replaceAllAux p r fuel (List.drop (p.length - 1) t)
    else b :: replaceAllAux p r fuel t

/-- The function `strings.ReplaceAll s p r` on byte strings. -/
def replaceAll (s p r : List Nat) : List Nat :=
  replaceAllAux p r s.length s

/-- Collapse each maximal run of `\s` whitespace into one space, as
`regexp.MustCompile("\\s+").ReplaceAllString(title, " ")` does.  The flag
records whether the previous byte was part of a whitespace run. -/
def collapseAux : Bool → List Nat → List Nat
  | _, [] => []
  | prevWs, b :: t =>
    if isPerlSpace b then
      if prevWs then collapseAux true t else 32 :: collapseAux true t
    else b :: collapseAux false t

/-- Whitespace-run collapapse entry point. -/
def collapseSpaces (s : List Nat) : List Nat :=
  collapseAux false s

/-- The function `strings.TrimSpace` on byte strings (ASCII whitespace). -/
def trimSpace (s : List Nat) : List Nat :=
  List.rdropWhile isTrimSpace (List.dropWhile isTrimSpace s)

/-- ASCII lower-casing of one byte, the action of `strings.ToLower` on
ASCII data. -/
def lowerByte (b : Nat) : Nat :=
  if 65 ≤ b ∧ b ≤ 90 then b + 32 else b

/-- The function `strings.ToLower` on byte strings (ASCII letters). -/
def toLowerBytes (s : List Nat) : List Nat :=
  s.map lowerByte

/-- The literal suffix pattern `-_YouTube-zh-CN-dual-double`. -/
def litDualDouble : List Nat :=
  [45, 95, 89, 111, 117, 84, 117, 98, 101, 45, 122, 104, 45, 67, 78, 45,
   100, 117, 97, 108, 45, 100, 111, 117, 98, 108, 101]

/-- The literal pattern `_-_YouTube`. -/
def litYouTube : List Nat :=
  [95, 45, 95, 89, 111, 117, 84, 117, 98, 101]

/-- The UTF-8 bytes of the full-width question mark. -/
def fullWidthQM : List Nat := [239, 188, 159]

/-- The function `normalizeTitle`: strip bracketed tags, remove the two platform literal
patterns, replace underscores by spaces, replace the full-width question
mark by the ASCII one, trim, collapse whitespace runs, and lower-case. -/
def normalizeTitle (title : List Nat) : List Nat :=
  let t1 := stripTags title
  let t2 := replaceAll t1 litDualDouble []
  let t3 := replaceAll t2 litYouTube []
  let t4 := replaceAll t3 [95] [32]
  let t5 := replaceAll t4 fullWidthQM [63]
  let t6 := trimSpace t5
  let t7 := collapseSpaces t6
  toLowerBytes t7

/-- Row `i + 1` of the LCS dynamic-programming table as a function of column
index, given byte `c1 = s1[i]` and the previous row `prev`.  Entry `j + 1`
follows the table recurrence of `longestCommonSubsequence`: on a byte match
it is the diagonal entry plus one, otherwise the larger of the entry above
and the entry to the left. -/
def lcsRowFun (s2 : List Nat) (c1 : Nat) (prev : Nat → Nat) : Nat → Nat
  | 0 => 0
  | j + 1 =>
    if c1 = s2.getD j 0 then prev j + 1
    else max (prev (j + 1)) (lcsRowFun s2 c1 prev j)

/-- The LCS dynamic-programming table: `lcsFun s1 s2 i j` is `dp[i][j]`, the
LCS length of the first `i` bytes of `s1` and the first `j` bytes of `s2`,
with zero base row and column. -/
def lcsFun (s1 s2 : List Nat) : Nat → Nat → Nat
  | 0 => fun _ => 0
  | i + 1 => lcsRowFun s2 (s1.getD i 0) (lcsFun s1 s2 i)

/-- The function `longestCommonSubsequence`: the final entry `dp[len s1][len s2]` of the
dynamic-programming table. -/
def longestCommonSubsequence (s1 s2 : List Nat) : Nat :=
  lcsFun s1 s2 s1.length s2.length

/-- The function `calculateSimilarity`: exact 1.0 on equal strings, otherwise the LCS
length divided by the larger of the two lengths, with a defensive 0.0 when
both are empty. -/
def calculateSimilarity (s1 s2 : List Nat) : ℚ :=
  if s1 = s2 then 1
  else
    let lcs := longestCommonSubsequence s1 s2
    let maxLen := if s1.length < s2.length then s2.length else s1.length
    if maxLen = 0 then 0
    else (lcs : ℚ) / (maxLen : ℚ)

/-- The path separator byte `/`. -/
def sepByte : Nat := 47

/-- Stack-based processing of the path elements for `filepath.Clean`: empty
and `.` elements are dropped, `..` pops the previous element unless there is
none (in which case it is kept for a relative path and dropped for a rooted
one) or the previous element is itself a kept `..`. -/
def cleanElems (rooted : Bool) : List (List Nat) → List (List Nat) → List (List Nat)
  | [], acc => acc.reverse
  | e :: rest, acc =>
    if e = [] ∨ e = [46] then cleanElems rooted rest acc
    else if e = [46, 46] then
      match acc with
      | [] => if rooted then cleanElems rooted rest [] else cleanElems rooted rest [[46, 46]]
      | top :: accTail =>
        if top = [46, 46] then cleanElems rooted rest ([46, 46] :: acc)
        else cleanElems rooted rest accTail
    else cleanElems rooted rest (e :: acc)

/-- The function `filepath.Clean` (Unix): lexical simplification of a path — collapse
separators, drop `.` elements, resolve `..` against preceding elements (and
against the root for rooted paths); the empty cleaned path is `.`. -/
def cleanPath (path : List Nat) : List Nat :=
  if path = [] then [46]
  else
    let rooted := path.head? = some sepByte
    let elems := cleanElems rooted (path.splitOn sepByte) []
    let out := List.intercalate [sepByte] elems
    let out := if rooted then sepByte :: out else out
    if out = [] then [46] else out

/-- The function `filepath.Base` (Unix): the last path element, after discarding trailing
separators; `.` for the empty path and `/` for an all-separator path. -/
def basePath (path : List Nat) : List Nat :=
  if path = [] then [46]
  else
    let p1 := List.rdropWhile (· == sepByte) path
    let p2 := (p1.reverse.takeWhile (· ≠ sepByte)).reverse
    if p2 = [] then [sepByte] else p2

/-- The function `filepath.Ext` (Unix): the suffix of the final path element starting at
its last dot, or empty when the final element has no dot. -/
def extPath (path : List Nat) : List Nat :=
  let revTail := path.reverse.takeWhile (· ≠ sepByte)
  if 46 ∈ revTail then ((revTail.takeWhile (· ≠ 46)) ++ [46]).reverse
  else []

/-- The function `strings.TrimSuffix`: drop the suffix when present, otherwise return the
string unchanged. -/
def trimSuffix (s suffix : List Nat) : List Nat :=
  if suffix.isSuffixOf s then s.take (s.length - suffix.length) else s

/-- The function `filepath.Dir` (Unix): everything up to the final separator, cleaned;
`.` when the path has no separator. -/
def dirPath (path : List Nat) : List Nat :=
  cleanPath ((path.reverse.dropWhile (· ≠ sepByte)).reverse)

/-- The function `filepath.Join` on the two arguments the engine joins: the first
non-empty argument onward, joined with a separator and cleaned; empty when
both are empty. -/
def joinPath (a b : List Nat) : List Nat :=
  if a = [] ∧ b = [] then []
  else if a = [] then cleanPath b
  else cleanPath (a ++ sepByte :: b)

/-- The matcher configuration record.  The `directory` field and the
extension lists drive only the (external, unmodelled) directory scan. -/
structure VideoSubtitleMatcher where
  videoExtensions : List (List Nat)
  subtitleExtensions : List (List Nat)
  directory : List Nat
  similarityThreshold : ℚ
  recursive : Bool
  dryRun : Bool
  verbose : Bool
  ignoreExisting : Bool

/-- The functional option `VideoExtensions`. -/
def VideoExtensions (extensions : List (List Nat)) (vsm : VideoSubtitleMatcher) :
    VideoSubtitleMatcher :=
  { vsm with videoExtensions := extensions }

/-- The functional option `SubtitleExtensions`. -/
def SubtitleExtensions (extensions : List (List Nat)) (vsm : VideoSubtitleMatcher) :
    VideoSubtitleMatcher :=
  { vsm with subtitleExtensions := extensions }

/-- The functional option `SimilarityThreshold`: the new threshold is stored
only when it lies in `[0, 1]`; otherwise the option leaves the matcher
unchanged. -/
def SimilarityThreshold (threshold : ℚ) (vsm : VideoSubtitleMatcher) :
    VideoSubtitleMatcher :=
  if 0 ≤ threshold ∧ threshold ≤ 1 then { vsm with similarityThreshold := threshold }
  else vsm

/-- The functional option `Recursive`. -/
def Recursive (recursive : Bool) (vsm : VideoSubtitleMatcher) : VideoSubtitleMatcher :=
  { vsm with recursive := recursive }

/-- The functional option `DryRun`. -/
def DryRun (dryRun : Bool) (vsm : VideoSubtitleMatcher) : VideoSubtitleMatcher :=
  { vsm with dryRun := dryRun }

/-- The functional option `Verbose`. -/
def Verbose (verbose : Bool) (vsm : VideoSubtitleMatcher) : VideoSubtitleMatcher :=
  { vsm with verbose := verbose }

/-- The functional option `IgnoreExisting`. -/
def IgnoreExisting (ignore : Bool) (vsm : VideoSubtitleMatcher) : VideoSubtitleMatcher :=
  { vsm with ignoreExisting := ignore }

/-- The options exported by the package, as an inductive so that a list of
options can be quantified over. -/
inductive MatcherOpt where
  | videoExtensions (extensions : List (List Nat))
  | subtitleExtensions (extensions : List (List Nat))
  | similarityThreshold (threshold : ℚ)
  | recursive (recursive : Bool)
  | dryRun (dryRun : Bool)
  | verbose (verbose : Bool)
  | ignoreExisting (ignore : Bool)

/-- Interpretation of an exported option as the matcher transformer it
constructs. -/
def applyOpt : MatcherOpt → VideoSubtitleMatcher → VideoSubtitleMatcher
  | .videoExtensions e => VideoExtensions e
  | .subtitleExtensions e => SubtitleExtensions e
  | .similarityThreshold t => SimilarityThreshold t
  | .recursive b => Recursive b
  | .dryRun b => DryRun b
  | .verbose b => Verbose b
  | .ignoreExisting b => IgnoreExisting b

/-- The default extension lists `.mkv .mp4 .avi .mov .webm`. -/
def defaultVideoExtensions : List (List Nat) :=
  [[46, 109, 107, 118], [46, 109, 112, 52], [46, 97, 118, 105], [46, 109, 111, 118],
   [46, 119, 101, 98, 109]]

/-- The default extension lists `.srt .ass .vtt`. -/
def defaultSubtitleExtensions : List (List Nat) :=
  [[46, 115, 114, 116], [46, 97, 115, 115], [46, 118, 116, 116]]

/-- The function `New`: the defaulted matcher for a directory, with the option list
applied in order. -/
def New (directory : List Nat) (options : List MatcherOpt) : VideoSubtitleMatcher :=
  options.foldl (fun vsm o => applyOpt o vsm)
    { videoExtensions := defaultVideoExtensions
      subtitleExtensions := defaultSubtitleExtensions
      directory := directory
      similarityThreshold := 3 / 5
      recursive := true
      dryRun := true
      verbose := true
      ignoreExisting := false }

/-- The function `findBestMatch`: normalize the subtitle stem, score every candidate
video stem against it in order, and keep the candidate with the strictly
greatest score; the initial best is the empty path with score 0. -/
def findBestMatch (subtitlePath : List Nat) (videoFiles : List (List Nat)) :
    List Nat × ℚ :=
  let subtitleName := trimSuffix (basePath subtitlePath) (extPath subtitlePath)
  let normalizedSubtitle := normalizeTitle subtitleName
  videoFiles.foldl
    (fun best videoPath =>
      let videoName := trimSuffix (basePath videoPath) (extPath videoPath)
      let normalizedVideo := normalizeTitle videoName
      let score := calculateSimilarity normalizedSubtitle normalizedVideo
      if best.2 < score then (videoPath, score) else best)
    ([], 0)

/-- The per-subtitle record `MatchResult`; `ε` is the error type of the
rename collaborator. -/
structure MatchResult (ε : Type) where
  subtitlePath : List Nat
  videoPath : List Nat
  newSubtitlePath : List Nat
  similarity : ℚ
  renamed : Bool
  error : Option ε

/-- The renamed target path for an accepted subtitle: the subtitle-file
directory joined with the matched video's base stem plus the subtitle's own
extension. -/
def newSubtitlePathFor (subtitlePath bestMatch : List Nat) : List Nat :=
  joinPath (dirPath subtitlePath)
    (trimSuffix (basePath bestMatch) (extPath bestMatch) ++ extPath subtitlePath)

/-- The body of one iteration of the `Match` loop for a single subtitle path:
the contribution to the result sequence (one record, or none when the
ignore-existing skip fires) and the filesystem state after any rename call. -/
def processSubtitle {σ ε : Type} (vsm : VideoSubtitleMatcher)
    (renameFn : σ → List Nat → List Nat → σ × Option ε)
    (videoFiles : List (List Nat)) (st : σ) (subtitlePath : List Nat) :
    List (MatchResult ε) × σ :=
  let found := findBestMatch subtitlePath videoFiles
  let bestMatch := found.1
  let score := found.2
  if vsm.similarityThreshold ≤ score then
    let newPath := newSubtitlePathFor subtitlePath bestMatch
    if vsm.ignoreExisting = true ∧ subtitlePath = newPath then ([], st)
    else if vsm.dryRun then
      ([⟨subtitlePath, bestMatch, newPath, score, false, none⟩], st)
    else if subtitlePath = newPath then
      ([⟨subtitlePath, bestMatch, newPath, score, true, none⟩], st)
    else
      match renameFn st subtitlePath newPath with
      | (st2, some e) => ([⟨subtitlePath, bestMatch, newPath, score, false, some e⟩], st2)
      | (st2, none) => ([⟨subtitlePath, bestMatch, newPath, score, true, none⟩], st2)
  else ([⟨subtitlePath, bestMatch, [], score, false, none⟩], st)

/-- One iteration of the `Match` loop, appending the contribution of one
subtitle to the accumulated result sequence. -/
def matchStep {σ ε : Type} (vsm : VideoSubtitleMatcher)
    (renameFn : σ → List Nat → List Nat → σ × Option ε)
    (videoFiles : List (List Nat)) (acc : List (MatchResult ε) × σ)
    (subtitlePath : List Nat) : List (MatchResult ε) × σ :=
  let pr := processSubtitle vsm renameFn videoFiles acc.2 subtitlePath
  (acc.1 ++ pr.1, pr.2)

/-- The `Match` loop after the directory scan: process the subtitle paths in
order against the scanned video paths, starting from filesystem state `s0`;
the top-level error of `Match` is nil on this path, so the model returns
just the result sequence and the final filesystem state. -/
def Match {σ ε : Type} (vsm : VideoSubtitleMatcher)
    (renameFn : σ → List Nat → List Nat → σ × Option ε)
    (videoFiles subtitleFiles : List (List Nat)) (s0 : σ) :
    List (MatchResult ε) × σ :=
  subtitleFiles.foldl (matchStep vsm renameFn videoFiles) ([], s0)

/-- The similarity score the selector computes for one candidate video path
against one subtitle path (both titles normalized from the path stems). -/
def subtitleScore (subtitlePath videoPath : List Nat) : ℚ :=
  calculateSimilarity
    (normalizeTitle (trimSuffix (basePath subtitlePath) (extPath subtitlePath)))
    (normalizeTitle (trimSuffix (basePath videoPath) (extPath videoPath)))

/-- A matcher value with the default extension lists and the given
threshold, dry-run and ignore-existing settings, for concrete runs. -/
def testMatcher (th : ℚ) (dry ign : Bool) : VideoSubtitleMatcher :=
  { videoExtensions := defaultVideoExtensions
    subtitleExtensions := defaultSubtitleExtensions
    directory := [46]
    similarityThreshold := th
    recursive := true
    dryRun := dry
    verbose := true
    ignoreExisting := ign }

/-- A rename oracle that always succeeds and leaves the state unchanged. -/
def noRename : Nat → List Nat → List Nat → Nat × Option Unit :=
  fun st _ _ => (st, none)

/-- A rename oracle that always fails with error code 7 and increments the
state (so a call is visible in the state). -/
def failRename : Nat → List Nat → List Nat → Nat × Option Nat :=
  fun st _ _ => (st + 1, some 7)

/-- The subtitle stem `How_to_code_-_YouTube-zh-CN-dual-double`. -/
def exSubStem : List Nat :=
  [72, 111, 119, 95, 116, 111, 95, 99, 111, 100, 101, 95, 45, 95, 89, 111, 117, 84, 117,
   98, 101, 45, 122, 104, 45, 67, 78, 45, 100, 117, 97, 108, 45, 100, 111, 117, 98, 108, 101]

/-- The video stem `How_to_code_[ABC123]`. -/
def exVidStem : List Nat :=
  [72, 111, 119, 95, 116, 111, 95, 99, 111, 100, 101, 95, 91, 65, 66, 67, 49, 50, 51, 93]

/-- The normalized title `how to code`. -/
def howToCode : List Nat :=
  [104, 111, 119, 32, 116, 111, 32, 99, 111, 100, 101]

/-- The subtitle path `vids/How_to_code_-_YouTube-zh-CN-dual-double.srt`. -/
def exSubPath : List Nat :=
  [118, 105, 100, 115, 47, 72, 111, 119, 95, 116, 111, 95, 99, 111, 100, 101, 95, 45, 95,
   89, 111, 117, 84, 117, 98, 101, 45, 122, 104, 45, 67, 78, 45, 100, 117, 97, 108, 45,
   100, 111, 117, 98, 108, 101, 46, 115, 114, 116]

/-- The video path `vids/How_to_code_[ABC123].mkv`. -/
def exVidPath : List Nat :=
  [118, 105, 100, 115, 47, 72, 111, 119, 95, 116, 111, 95, 99, 111, 100, 101, 95, 91, 65,
   66, 67, 49, 50, 51, 93, 46, 109, 107, 118]

/-- The expected renamed subtitle path `vids/How_to_code_[ABC123].srt`. -/
def exNewPath : List Nat :=
  [118, 105, 100, 115, 47, 72, 111, 119, 95, 116, 111, 95, 99, 111, 100, 101, 95, 91, 65,
   66, 67, 49, 50, 51, 93, 46, 115, 114, 116]

/-- Each DP row is bounded by its row and column indices. -/
theorem lcsRowFun_le (s2 : List Nat) (c1 : Nat) (prev : Nat → Nat) (i : Nat)
    (hprev : ∀ j, prev j ≤ min i j) : ∀ j, lcsRowFun s2 c1 prev j ≤ min (i + 1) j := by
  intro j
  induction j with
  | zero => simp [lcsRowFun]
  | succ j ih =>
    rw [lcsRowFun]
    split
    · have := hprev j
      omega
    · have h1 := hprev (j + 1)
      have h2 := ih
      simp only [max_le_iff]
      omega

/-- The DP table entry `dp[i][j]` is at most `min i j`. -/
theorem lcsFun_le (s1 s2 : List Nat) : ∀ i j, lcsFun s1 s2 i j ≤ min i j := by
  intro i
  induction i with
  | zero => intro j; simp [lcsFun]
  | succ i ih =>
    intro j
    exact lcsRowFun_le s2 (s1.getD i 0) (lcsFun s1 s2 i) i ih j

/-- The LCS length is at most the length of either string. -/
theorem longestCommonSubsequence_le (s1 s2 : List Nat) :
    longestCommonSubsequence s1 s2 ≤ min s1.length s2.length :=
  lcsFun_le s1 s2 s1.length s2.length

/-- C1. `calculateSimilarity` returns exactly 1 on equal strings; on unequal
strings it returns the DP LCS length divided by the larger length; the value
always lies in the interval `[0, 1]`. -/
theorem similarity_spec (a b : List Nat) :
    (a = b → calculateSimilarity a b = 1) ∧
    (a ≠ b → calculateSimilarity a b =
      (longestCommonSubsequence a b : ℚ) / (max a.length b.length : ℚ)) ∧
    0 ≤ calculateSimilarity a b ∧ calculateSimilarity a b ≤ 1 := by
  by_cases hab : a = b
  · subst hab
    simp [calculateSimilarity]
  · have hmax : (if a.length < b.length then b.length else a.length) =
        max a.length b.length := by
      rcases Nat.lt_or_ge a.length b.length with h | h
      · rw [if_pos h, Nat.max_eq_right (Nat.le_of_lt h)]
      · rw [if_neg (Nat.not_lt.mpr h), Nat.max_eq_left h]
    have hmaxpos : 0 < max a.length b.length := by
      rcases Nat.eq_zero_or_pos (max a.length b.length) with h | h
      · rw [Nat.max_eq_zero_iff] at h
        obtain ⟨ha, hb⟩ := h
        rw [List.length_eq_zero] at ha hb
        exact absurd (ha.trans hb.symm) hab
      · exact h
    have hsim : calculateSimilarity a b =
        (longestCommonSubsequence a b : ℚ) / (max a.length b.length : ℚ) := by
      simp only [calculateSimilarity, if_neg hab, hmax]
      rw [if_neg (Nat.pos_iff_ne_zero.mp hmaxpos), Nat.cast_max]
    have hle : longestCommonSubsequence a b ≤ max a.length b.length :=
      (longestCommonSubsequence_le a b).trans
        ((Nat.min_le_left _ _).trans (Nat.le_max_left _ _))
    refine ⟨fun h => absurd h hab, fun _ => hsim, ?_, ?_⟩
    · rw [hsim]
      exact div_nonneg (Nat.cast_nonneg _) (le_max_of_le_left (Nat.cast_nonneg _))
    · rw [hsim, div_le_one (by exact_mod_cast hmaxpos)]
      exact_mod_cast hle

/-- Witness for C1 at concrete points: equal empty strings score 1, and a
concrete unequal pair takes the quotient form. -/
theorem similarity_spec_point :
    calculateSimilarity [] [] = 1 ∧
    calculateSimilarity [97] [97, 98] =
      (longestCommonSubsequence [97] [97, 98] : ℚ) /
        (max (List.length [97]) (List.length [97, 98]) : ℚ) :=
  ⟨(similarity_spec [] []).1 rfl, (similarity_spec [97] [97, 98]).2.1 (by decide)⟩

/-- The function `findBestMatch` is the left fold of the strict-improvement step over the
candidate list, starting from the empty path with score 0. -/
theorem findBestMatch_fold (p : List Nat) (vfs : List (List Nat)) :
    findBestMatch p vfs = vfs.foldl
      (fun best v => if best.2 < subtitleScore p v then (v, subtitleScore p v) else best)
      ([], 0) := rfl

/-- The selector fold never moves off an accumulator whose score no
candidate strictly beats. -/
theorem selector_fold_const (p : List Nat) (l : List (List Nat)) (acc : List Nat × ℚ)
    (h : ∀ v ∈ l, subtitleScore p v ≤ acc.2) :
    l.foldl (fun best v => if best.2 < subtitleScore p v then (v, subtitleScore p v) else best)
      acc = acc := by
  induction l generalizing acc with
  | nil => rfl
  | cons v t ih =>
    rw [List.foldl_cons, if_neg (not_lt.mpr (h v (List.mem_cons_self v t)))]
    exact ih acc fun u hu => h u (List.mem_cons_of_mem v hu)

/-- The selector fold lands on the first candidate attaining score `M` when
everything before it scores strictly below `M`, everything after scores at
most `M`, and the accumulator score is strictly below `M`. -/
theorem selector_fold_reach (p v : List Nat) (l2 : List (List Nat)) (M : ℚ)
    (hv : subtitleScore p v = M) (h2 : ∀ u ∈ l2, subtitleScore p u ≤ M) :
    ∀ (l1 : List (List Nat)) (bp : List Nat) (bs : ℚ), bs < M →
      (∀ u ∈ l1, subtitleScore p u < M) →
      (l1 ++ v :: l2).foldl
        (fun best w => if best.2 < subtitleScore p w then (w, subtitleScore p w) else best)
        (bp, bs) = (v, M) := by
  intro l1
  induction l1 with
  | nil =>
    intro bp bs hacc _
    simp only [List.nil_append, List.foldl_cons]
    rw [hv, if_pos (show (bp, bs).2 < M from hacc)]
    exact selector_fold_const p l2 (v, M) h2
  | cons u t ih =>
    intro bp bs hacc h1
    rw [List.cons_append, List.foldl_cons]
    by_cases hc : (bp, bs).2 < subtitleScore p u
    · rw [if_pos hc]
      exact ih u (subtitleScore p u) (h1 u (List.mem_cons_self u t))
        fun w hw => h1 w (List.mem_cons_of_mem u hw)
    · rw [if_neg hc]
      exact ih bp bs hacc fun w hw => h1 w (List.mem_cons_of_mem u hw)

/-- On unequal strings with LCS length 0 the similarity is 0. -/
theorem calculateSimilarity_eq_zero (a b : List Nat) (hne : a ≠ b)
    (h : longestCommonSubsequence a b = 0) : calculateSimilarity a b = 0 := by
  simp only [calculateSimilarity, if_neg hne, h]
  split <;> simp

/-- The subtitle `z.srt` scores 0 against the video `a.mkv`. -/
theorem scoreZA : subtitleScore [122, 46, 115, 114, 116] [97, 46, 109, 107, 118] = 0 := by
  simp only [subtitleScore]
  exact calculateSimilarity_eq_zero _ _ (by decide) (by decide)

/-- The subtitle `z.srt` scores 0 against the video `b.mkv`. -/
theorem scoreZB : subtitleScore [122, 46, 115, 114, 116] [98, 46, 109, 107, 118] = 0 := by
  simp only [subtitleScore]
  exact calculateSimilarity_eq_zero _ _ (by decide) (by decide)

/-- C4 counterexample: for subtitle `z.srt` and candidates `a.mkv, b.mkv`,
both candidates attain the maximal score (they tie at the maximum), yet
`findBestMatch` does not return the first of them — the strict-improvement
rule never fires against the initial score 0, so the empty initial path is
returned instead. -/
theorem findBestMatch_tie_counterexample :
    subtitleScore [122, 46, 115, 114, 116] [97, 46, 109, 107, 118] =
      subtitleScore [122, 46, 115, 114, 116] [98, 46, 109, 107, 118] ∧
    (∀ u ∈ [[97, 46, 109, 107, 118], [98, 46, 109, 107, 118]],
      subtitleScore [122, 46, 115, 114, 116] u ≤
        subtitleScore [122, 46, 115, 114, 116] [97, 46, 109, 107, 118]) ∧
    (findBestMatch [122, 46, 115, 114, 116]
        [[97, 46, 109, 107, 118], [98, 46, 109, 107, 118]]).1 ≠
      [97, 46, 109, 107, 118] := by
  have hmem : ∀ u ∈ [[97, 46, 109, 107, 118], [98, 46, 109, 107, 118]],
      subtitleScore [122, 46, 115, 114, 116] u ≤ 0 := by
    intro u hu
    simp only [List.mem_cons, List.not_mem_nil, or_false] at hu
    rcases hu with rfl | rfl
    · exact le_of_eq scoreZA
    · exact le_of_eq scoreZB
  have hfold : findBestMatch [122, 46, 115, 114, 116]
      [[97, 46, 109, 107, 118], [98, 46, 109, 107, 118]] = ([], 0) := by
    rw [findBestMatch_fold]
    exact selector_fold_const _ _ _ hmem
  refine ⟨scoreZA.trans scoreZB.symm, ?_, ?_⟩
  · rw [scoreZA]
    exact hmem
  · rw [hfold]
    decide

/-- C4 amended: when the maximal score is positive, `findBestMatch` returns
the first candidate attaining it — the best candidate is replaced only on a
strictly greater score, never on an equal one. -/
theorem findBestMatch_first_of_max (subtitlePath v : List Nat)
    (l1 l2 : List (List Nat)) (M : ℚ)
    (hv : subtitleScore subtitlePath v = M) (hpos : 0 < M)
    (h1 : ∀ u ∈ l1, subtitleScore subtitlePath u < M)
    (h2 : ∀ u ∈ l2, subtitleScore subtitlePath u ≤ M) :
    findBestMatch subtitlePath (l1 ++ v :: l2) = (v, M) := by
  rw [findBestMatch_fold]
  exact selector_fold_reach subtitlePath v l2 M hv h2 l1 [] 0 hpos h1

/-- Witness for the amended C4: subtitle `ab.srt` with candidates
`ab.mkv, ab.mp4` both scoring 1 — the first candidate wins the tie. -/
theorem findBestMatch_first_of_max_point :
    findBestMatch [97, 98, 46, 115, 114, 116]
      [[97, 98, 46, 109, 107, 118], [97, 98, 46, 109, 112, 52]] =
      ([97, 98, 46, 109, 107, 118], 1) :=
  findBestMatch_first_of_max [97, 98, 46, 115, 114, 116] [97, 98, 46, 109, 107, 118]
    [] [[97, 98, 46, 109, 112, 52]] 1 (by decide) (by decide) (by decide) (by decide)

/-- C10. When every candidate scores 0 against the subtitle, `findBestMatch`
returns the empty path with score 0, exactly its result on an empty
candidate list. -/
theorem findBestMatch_all_zero (subtitlePath : List Nat) (videoFiles : List (List Nat))
    (hne : videoFiles ≠ [])
    (h : ∀ v ∈ videoFiles, subtitleScore subtitlePath v = 0) :
    findBestMatch subtitlePath videoFiles = ([], 0) ∧
      findBestMatch subtitlePath [] = ([], 0) := by
  refine ⟨?_, rfl⟩
  rw [findBestMatch_fold]
  exact selector_fold_const subtitlePath videoFiles ([], 0) fun v hv => le_of_eq (h v hv)

/-- Witness for C10: subtitle `z.srt` with the single zero-scoring candidate
`a.mkv`. -/
theorem findBestMatch_all_zero_point :
    findBestMatch [122, 46, 115, 114, 116] [[97, 46, 109, 107, 118]] = ([], 0) ∧
      findBestMatch [122, 46, 115, 114, 116] [] = ([], 0) := by
  refine findBestMatch_all_zero _ _ (by decide) ?_
  intro v hv
  rw [List.mem_singleton] at hv
  subst hv
  exact scoreZA

/-- Every exported option preserves a threshold in `[0, 1]`. -/
theorem applyOpt_threshold (o : MatcherOpt) (vsm : VideoSubtitleMatcher)
    (h : 0 ≤ vsm.similarityThreshold ∧ vsm.similarityThreshold ≤ 1) :
    0 ≤ (applyOpt o vsm).similarityThreshold ∧
      (applyOpt o vsm).similarityThreshold ≤ 1 := by
  cases o with
  | videoExtensions e => simpa [applyOpt, VideoExtensions] using h
  | subtitleExtensions e => simpa [applyOpt, SubtitleExtensions] using h
  | similarityThreshold t =>
    simp only [applyOpt, SimilarityThreshold]
    split_ifs with ht
    · simpa using ht
    · exact h
  | recursive b => simpa [applyOpt, Recursive] using h
  | dryRun b => simpa [applyOpt, DryRun] using h
  | verbose b => simpa [applyOpt, Verbose] using h
  | ignoreExisting b => simpa [applyOpt, IgnoreExisting] using h

/-- Folding any option list preserves a threshold in `[0, 1]`. -/
theorem foldOpts_threshold (opts : List MatcherOpt) :
    ∀ vsm : VideoSubtitleMatcher,
      0 ≤ vsm.similarityThreshold ∧ vsm.similarityThreshold ≤ 1 →
      0 ≤ (opts.foldl (fun vsm o => applyOpt o vsm) vsm).similarityThreshold ∧
        (opts.foldl (fun vsm o => applyOpt o vsm) vsm).similarityThreshold ≤ 1 := by
  induction opts with
  | nil => intro vsm h; exact h
  | cons o rest ih =>
    intro vsm h
    rw [List.foldl_cons]
    exact ih (applyOpt o vsm) (applyOpt_threshold o vsm h)

/-- C8. Every matcher built by `New` has its similarity threshold in the
interval `[0, 1]` (default 0.6), and `SimilarityThreshold` with an
out-of-range argument leaves the stored threshold unchanged. -/
theorem new_threshold_in_range :
    (∀ (directory : List Nat) (options : List MatcherOpt),
      0 ≤ (New directory options).similarityThreshold ∧
        (New directory options).similarityThreshold ≤ 1) ∧
    ∀ (t : ℚ) (vsm : VideoSubtitleMatcher), ¬(0 ≤ t ∧ t ≤ 1) →
      (SimilarityThreshold t vsm).similarityThreshold = vsm.similarityThreshold := by
  constructor
  · intro directory options
    refine foldOpts_threshold options _ ?_
    constructor <;> norm_num
  · intro t vsm h
    simp [SimilarityThreshold, h]

/-- Witness for C8: the threshold is in range after an out-of-range option,
and an out-of-range `SimilarityThreshold 2` leaves the default unchanged. -/
theorem new_threshold_in_range_point :
    (0 ≤ (New [] [MatcherOpt.similarityThreshold 5]).similarityThreshold ∧
      (New [] [MatcherOpt.similarityThreshold 5]).similarityThreshold ≤ 1) ∧
    (SimilarityThreshold 2 (New [] [])).similarityThreshold =
      (New [] []).similarityThreshold :=
  ⟨new_threshold_in_range.1 [] [MatcherOpt.similarityThreshold 5],
   new_threshold_in_range.2 2 (New [] []) (by decide)⟩

/-- The function `matchStep` on an explicit accumulator pair appends the contribution of
the subtitle computed from the state component. -/
theorem matchStep_pair {σ ε : Type} (vsm : VideoSubtitleMatcher)
    (rf : σ → List Nat → List Nat → σ × Option ε) (vfs : List (List Nat))
    (res : List (MatchResult ε)) (st : σ) (p : List Nat) :
    matchStep vsm rf vfs (res, st) p =
      (res ++ (processSubtitle vsm rf vfs st p).1, (processSubtitle vsm rf vfs st p).2) := rfl

/-- The function `Match` on an empty subtitle list returns no results and the initial
state. -/
theorem match_nil {σ ε : Type} (vsm : VideoSubtitleMatcher)
    (rf : σ → List Nat → List Nat → σ × Option ε) (vfs : List (List Nat)) (s0 : σ) :
    Match (ε := ε) vsm rf vfs [] s0 = ([], s0) := rfl

/-- The result prefix of the `Match` fold factors out of the accumulator. -/
theorem match_shift {σ ε : Type} (vsm : VideoSubtitleMatcher)
    (rf : σ → List Nat → List Nat → σ × Option ε) (vfs : List (List Nat)) :
    ∀ (l : List (List Nat)) (res : List (MatchResult ε)) (st : σ),
      l.foldl (matchStep vsm rf vfs) (res, st) =
        (res ++ (l.foldl (matchStep vsm rf vfs) ([], st)).1,
          (l.foldl (matchStep vsm rf vfs) ([], st)).2) := by
  intro l
  induction l with
  | nil => intro res st; simp
  | cons p t ih =>
    intro res st
    rw [List.foldl_cons, List.foldl_cons, matchStep_pair, matchStep_pair]
    rw [List.nil_append]
    rw [ih (res ++ (processSubtitle vsm rf vfs st p).1) (processSubtitle vsm rf vfs st p).2]
    rw [ih (processSubtitle vsm rf vfs st p).1 (processSubtitle vsm rf vfs st p).2]
    simp [List.append_assoc]

/-- Unfolding one subtitle of the `Match` loop. -/
theorem match_cons {σ ε : Type} (vsm : VideoSubtitleMatcher)
    (rf : σ → List Nat → List Nat → σ × Option ε) (vfs : List (List Nat))
    (p : List Nat) (rest : List (List Nat)) (s0 : σ) :
    Match vsm rf vfs (p :: rest) s0 =
      ((processSubtitle vsm rf vfs s0 p).1 ++
        (Match vsm rf vfs rest (processSubtitle vsm rf vfs s0 p).2).1,
        (Match vsm rf vfs rest (processSubtitle vsm rf vfs s0 p).2).2) := by
  simp only [Match, List.foldl_cons, matchStep_pair, List.nil_append]
  rw [match_shift vsm rf vfs rest (processSubtitle vsm rf vfs s0 p).1
    (processSubtitle vsm rf vfs s0 p).2]

/-- The function `Match` over a concatenation splits into sequential runs, the second
starting from the state the first ends in. -/
theorem match_append {σ ε : Type} (vsm : VideoSubtitleMatcher)
    (rf : σ → List Nat → List Nat → σ × Option ε) (vfs : List (List Nat))
    (l1 l2 : List (List Nat)) (s0 : σ) :
    Match vsm rf vfs (l1 ++ l2) s0 =
      ((Match vsm rf vfs l1 s0).1 ++
        (Match vsm rf vfs l2 (Match vsm rf vfs l1 s0).2).1,
        (Match vsm rf vfs l2 (Match vsm rf vfs l1 s0).2).2) := by
  induction l1 generalizing s0 with
  | nil => simp [match_nil]
  | cons p t ih =>
    rw [List.cons_append, match_cons, match_cons, ih]
    simp [List.append_assoc]

/-- Below the threshold: the result carries the best path and score but no
new path, `renamed = false`, no error, and the state is untouched. -/
theorem processSubtitle_reject {σ ε : Type} (vsm : VideoSubtitleMatcher)
    (rf : σ → List Nat → List Nat → σ × Option ε) (vfs : List (List Nat))
    (st : σ) (p : List Nat)
    (h : (findBestMatch p vfs).2 < vsm.similarityThreshold) :
    processSubtitle vsm rf vfs st p =
      ([⟨p, (findBestMatch p vfs).1, [], (findBestMatch p vfs).2, false, none⟩], st) := by
  simp only [processSubtitle]
  rw [if_neg (not_le.mpr h)]

/-- The ignore-existing skip: an accepted subtitle whose computed new path
equals its original path contributes no result. -/
theorem processSubtitle_skip {σ ε : Type} (vsm : VideoSubtitleMatcher)
    (rf : σ → List Nat → List Nat → σ × Option ε) (vfs : List (List Nat))
    (st : σ) (p : List Nat)
    (hth : vsm.similarityThreshold ≤ (findBestMatch p vfs).2)
    (hig : vsm.ignoreExisting = true)
    (heq : p = newSubtitlePathFor p (findBestMatch p vfs).1) :
    processSubtitle vsm rf vfs st p = (([] : List (MatchResult ε)), st) := by
  simp only [processSubtitle]
  rw [if_pos hth, if_pos ⟨hig, heq⟩]

/-- Accepted in dry-run mode: the new path is recorded, no rename happens,
`renamed = false`, no error, state untouched. -/
theorem processSubtitle_dry {σ ε : Type} (vsm : VideoSubtitleMatcher)
    (rf : σ → List Nat → List Nat → σ × Option ε) (vfs : List (List Nat))
    (st : σ) (p : List Nat)
    (hth : vsm.similarityThreshold ≤ (findBestMatch p vfs).2)
    (hskip : ¬(vsm.ignoreExisting = true ∧
      p = newSubtitlePathFor p (findBestMatch p vfs).1))
    (hdry : vsm.dryRun = true) :
    processSubtitle vsm rf vfs st p =
      ([⟨p, (findBestMatch p vfs).1, newSubtitlePathFor p (findBestMatch p vfs).1,
        (findBestMatch p vfs).2, false, none⟩], st) := by
  simp only [processSubtitle]
  rw [if_pos hth, if_neg hskip, if_pos hdry]

/-- Accepted, not dry-run, already correctly named: marked renamed with no
rename call (state untouched). -/
theorem processSubtitle_already_named {σ ε : Type} (vsm : VideoSubtitleMatcher)
    (rf : σ → List Nat → List Nat → σ × Option ε) (vfs : List (List Nat))
    (st : σ) (p : List Nat)
    (hth : vsm.similarityThreshold ≤ (findBestMatch p vfs).2)
    (hskip : ¬(vsm.ignoreExisting = true ∧
      p = newSubtitlePathFor p (findBestMatch p vfs).1))
    (hdry : vsm.dryRun = false)
    (heq : p = newSubtitlePathFor p (findBestMatch p vfs).1) :
    processSubtitle vsm rf vfs st p =
      ([⟨p, (findBestMatch p vfs).1, newSubtitlePathFor p (findBestMatch p vfs).1,
        (findBestMatch p vfs).2, true, none⟩], st) := by
  simp only [processSubtitle]
  rw [if_pos hth, if_neg hskip, if_neg (by simp [hdry]), if_pos heq]

/-- Accepted, not dry-run, rename call fails: the error is recorded on the
result, `renamed` stays false, and the state is the one the failed call
produced. -/
theorem processSubtitle_rename_fail {σ ε : Type} (vsm : VideoSubtitleMatcher)
    (rf : σ → List Nat → List Nat → σ × Option ε) (vfs : List (List Nat))
    (st : σ) (p : List Nat)
    (hdry : vsm.dryRun = false)
    (hth : vsm.similarityThreshold ≤ (findBestMatch p vfs).2)
    (hne : p ≠ newSubtitlePathFor p (findBestMatch p vfs).1)
    (st2 : σ) (e : ε)
    (hrf : rf st p (newSubtitlePathFor p (findBestMatch p vfs).1) = (st2, some e)) :
    processSubtitle vsm rf vfs st p =
      ([⟨p, (findBestMatch p vfs).1, newSubtitlePathFor p (findBestMatch p vfs).1,
        (findBestMatch p vfs).2, false, some e⟩], st2) := by
  simp only [processSubtitle]
  rw [if_pos hth, if_neg (fun hc => hne hc.2), if_neg (by simp [hdry]), if_neg hne, hrf]

/-- Accepted, not dry-run, rename call succeeds: `renamed = true`, no error,
state from the call. -/
theorem processSubtitle_rename_ok {σ ε : Type} (vsm : VideoSubtitleMatcher)
    (rf : σ → List Nat → List Nat → σ × Option ε) (vfs : List (List Nat))
    (st : σ) (p : List Nat)
    (hdry : vsm.dryRun = false)
    (hth : vsm.similarityThreshold ≤ (findBestMatch p vfs).2)
    (hne : p ≠ newSubtitlePathFor p (findBestMatch p vfs).1)
    (st2 : σ)
    (hrf : rf st p (newSubtitlePathFor p (findBestMatch p vfs).1) = (st2, none)) :
    processSubtitle vsm rf vfs st p =
      ([⟨p, (findBestMatch p vfs).1, newSubtitlePathFor p (findBestMatch p vfs).1,
        (findBestMatch p vfs).2, true, none⟩], st2) := by
  simp only [processSubtitle]
  rw [if_pos hth, if_neg (fun hc => hne hc.2), if_neg (by simp [hdry]), if_neg hne, hrf]

/-- In dry-run mode one subtitle never changes the state and its result (if
any) has `renamed = false` and no error. -/
theorem processSubtitle_dry_flags {σ ε : Type} (vsm : VideoSubtitleMatcher)
    (rf : σ → List Nat → List Nat → σ × Option ε) (vfs : List (List Nat))
    (st : σ) (p : List Nat) (hdry : vsm.dryRun = true) :
    (processSubtitle vsm rf vfs st p).2 = st ∧
      ∀ r ∈ (processSubtitle vsm rf vfs st p).1, r.renamed = false ∧ r.error = none := by
  by_cases hth : vsm.similarityThreshold ≤ (findBestMatch p vfs).2
  · by_cases hskip : vsm.ignoreExisting = true ∧
        p = newSubtitlePathFor p (findBestMatch p vfs).1
    · rw [processSubtitle_skip vsm rf vfs st p hth hskip.1 hskip.2]
      simp
    · rw [processSubtitle_dry vsm rf vfs st p hth hskip hdry]
      simp
  · rw [processSubtitle_reject vsm rf vfs st p (not_le.mp hth)]
    simp

/-- C7. With `dryRun = true`, `Match` never calls the rename collaborator
(the filesystem state it returns is the initial one, for every oracle), and
every emitted result has `renamed = false` and no error. -/
theorem match_dry_run {σ ε : Type} (vsm : VideoSubtitleMatcher)
    (rf : σ → List Nat → List Nat → σ × Option ε) (vfs sfs : List (List Nat))
    (s0 : σ) (hdry : vsm.dryRun = true) :
    (Match vsm rf vfs sfs s0).2 = s0 ∧
      ∀ r ∈ (Match vsm rf vfs sfs s0).1, r.renamed = false ∧ r.error = none := by
  induction sfs generalizing s0 with
  | nil => exact ⟨rfl, by simp [match_nil]⟩
  | cons p t ih =>
    obtain ⟨hst, hflags⟩ := processSubtitle_dry_flags vsm rf vfs s0 p hdry
    obtain ⟨ihst, ihflags⟩ := ih ((processSubtitle vsm rf vfs s0 p).2)
    rw [match_cons]
    constructor
    · show (Match vsm rf vfs t (processSubtitle vsm rf vfs s0 p).2).2 = s0
      rw [ihst, hst]
    · intro r hr
      have hr2 : r ∈ (processSubtitle vsm rf vfs s0 p).1 ++
          (Match vsm rf vfs t (processSubtitle vsm rf vfs s0 p).2).1 := hr
      rcases List.mem_append.mp hr2 with h | h
      · exact hflags r h
      · exact ihflags r h

/-- Witness for C7: a defaulted dry-run matcher over one subtitle changes no
state and reports `renamed = false` without error. -/
theorem match_dry_run_point :
    (Match (testMatcher 1 true false) noRename [] [[97, 46, 115, 114, 116]] 0).2 = 0 ∧
      ∀ r ∈ (Match (testMatcher 1 true false) noRename [] [[97, 46, 115, 114, 116]] 0).1,
        r.renamed = false ∧ r.error = none :=
  match_dry_run (testMatcher 1 true false) noRename [] [[97, 46, 115, 114, 116]] 0 rfl

/-- C6. On a single subtitle, `Match` emits no result exactly when
`ignoreExisting` is set, the best score reaches the threshold, and the
computed new path equals the original subtitle path; in every other case
the subtitle produces exactly one result record. -/
theorem match_skip_iff {σ ε : Type} (vsm : VideoSubtitleMatcher)
    (rf : σ → List Nat → List Nat → σ × Option ε) (vfs : List (List Nat))
    (p : List Nat) (s0 : σ) :
    (Match vsm rf vfs [p] s0).1 = [] ↔
      vsm.ignoreExisting = true ∧
        vsm.similarityThreshold ≤ (findBestMatch p vfs).2 ∧
        p = newSubtitlePathFor p (findBestMatch p vfs).1 := by
  have hsingle : (Match vsm rf vfs [p] s0).1 = (processSubtitle vsm rf vfs s0 p).1 := by
    rw [match_cons]
    simp [match_nil]
  rw [hsingle]
  by_cases hth : vsm.similarityThreshold ≤ (findBestMatch p vfs).2
  · by_cases hskip : vsm.ignoreExisting = true ∧
        p = newSubtitlePathFor p (findBestMatch p vfs).1
    · rw [processSubtitle_skip vsm rf vfs s0 p hth hskip.1 hskip.2]
      exact iff_of_true rfl ⟨hskip.1, hth, hskip.2⟩
    · by_cases hdry : vsm.dryRun = true
      · rw [processSubtitle_dry vsm rf vfs s0 p hth hskip hdry]
        simp only [List.cons_ne_nil, false_iff]
        intro hc
        exact hskip ⟨hc.1, hc.2.2⟩
      · by_cases heq : p = newSubtitlePathFor p (findBestMatch p vfs).1
        · rw [processSubtitle_already_named vsm rf vfs s0 p hth hskip
            (by simpa using hdry) heq]
          simp only [List.cons_ne_nil, false_iff]
          intro hc
          exact hskip ⟨hc.1, hc.2.2⟩
        · rcases hrf : rf s0 p (newSubtitlePathFor p (findBestMatch p vfs).1) with ⟨st2, eo⟩
          cases eo with
          | some e =>
            rw [processSubtitle_rename_fail vsm rf vfs s0 p
              (by simpa using hdry) hth heq st2 e hrf]
            simp only [List.cons_ne_nil, false_iff]
            intro hc
            exact hskip ⟨hc.1, hc.2.2⟩
          | none =>
            rw [processSubtitle_rename_ok vsm rf vfs s0 p
              (by simpa using hdry) hth heq st2 hrf]
            simp only [List.cons_ne_nil, false_iff]
            intro hc
            exact hskip ⟨hc.1, hc.2.2⟩
  · rw [processSubtitle_reject vsm rf vfs s0 p (not_le.mp hth)]
    simp only [List.cons_ne_nil, false_iff]
    intro hc
    exact hth hc.2.1

/-- C3. A best score exactly equal to the threshold is accepted — the single
emitted result carries the computed new subtitle path (whenever the
ignore-existing skip does not suppress it); a best score strictly below the
threshold yields a result with that score, an empty new path and
`renamed = false`. -/
theorem match_threshold_boundary {σ ε : Type} (vsm : VideoSubtitleMatcher)
    (rf : σ → List Nat → List Nat → σ × Option ε) (vfs : List (List Nat))
    (p : List Nat) (s0 : σ) :
    ((findBestMatch p vfs).2 = vsm.similarityThreshold →
      ¬(vsm.ignoreExisting = true ∧ p = newSubtitlePathFor p (findBestMatch p vfs).1) →
      (Match vsm rf vfs [p] s0).1.map (fun r => r.newSubtitlePath) =
        [newSubtitlePathFor p (findBestMatch p vfs).1]) ∧
    ((findBestMatch p vfs).2 < vsm.similarityThreshold →
      (Match vsm rf vfs [p] s0).1 =
        [⟨p, (findBestMatch p vfs).1, [], (findBestMatch p vfs).2, false, none⟩]) := by
  have hsingle : (Match vsm rf vfs [p] s0).1 = (processSubtitle vsm rf vfs s0 p).1 := by
    rw [match_cons]
    simp [match_nil]
  constructor
  · intro heq hskip
    have hth : vsm.similarityThreshold ≤ (findBestMatch p vfs).2 := le_of_eq heq.symm
    rw [hsingle]
    by_cases hdry : vsm.dryRun = true
    · rw [processSubtitle_dry vsm rf vfs s0 p hth hskip hdry]
      simp
    · by_cases heqp : p = newSubtitlePathFor p (findBestMatch p vfs).1
      · rw [processSubtitle_already_named vsm rf vfs s0 p hth hskip
          (by simpa using hdry) heqp]
        simp
      · rcases hrf : rf s0 p (newSubtitlePathFor p (findBestMatch p vfs).1) with ⟨st2, eo⟩
        cases eo with
        | some e =>
          rw [processSubtitle_rename_fail vsm rf vfs s0 p
            (by simpa using hdry) hth heqp st2 e hrf]
          simp
        | none =>
          rw [processSubtitle_rename_ok vsm rf vfs s0 p
            (by simpa using hdry) hth heqp st2 hrf]
          simp
  · intro hlt
    rw [hsingle, processSubtitle_reject vsm rf vfs s0 p hlt]

/-- The subtitle `z.srt` finds no positive-scoring candidate among
`[b.mkv]`. -/
theorem findBestMatchZB :
    findBestMatch [122, 46, 115, 114, 116] [[98, 46, 109, 107, 118]] = ([], 0) := by
  rw [findBestMatch_fold]
  refine selector_fold_const _ _ _ ?_
  intro u hu
  rw [List.mem_singleton] at hu
  subst hu
  exact le_of_eq scoreZB

/-- Witness for C3: with threshold 1, subtitle `a b.srt` and video `a_b.mkv`
score exactly 1 and the new path is emitted; subtitle `z.srt` against
`b.mkv` scores 0 < 1 and yields the empty-new-path record. -/
theorem match_threshold_boundary_point :
    (Match (testMatcher 1 true false) noRename [[97, 95, 98, 46, 109, 107, 118]]
        [[97, 32, 98, 46, 115, 114, 116]] 0).1.map (fun r => r.newSubtitlePath) =
      [newSubtitlePathFor [97, 32, 98, 46, 115, 114, 116]
        (findBestMatch [97, 32, 98, 46, 115, 114, 116]
          [[97, 95, 98, 46, 109, 107, 118]]).1] ∧
    (Match (testMatcher 1 true false) noRename [[98, 46, 109, 107, 118]]
        [[122, 46, 115, 114, 116]] 0).1 =
      [⟨[122, 46, 115, 114, 116],
        (findBestMatch [122, 46, 115, 114, 116] [[98, 46, 109, 107, 118]]).1, [],
        (findBestMatch [122, 46, 115, 114, 116] [[98, 46, 109, 107, 118]]).2, false, none⟩] :=
  ⟨(match_threshold_boundary (testMatcher 1 true false) noRename
      [[97, 95, 98, 46, 109, 107, 118]] [97, 32, 98, 46, 115, 114, 116] 0).1
      (by decide) (by decide),
   (match_threshold_boundary (testMatcher 1 true false) noRename
      [[98, 46, 109, 107, 118]] [122, 46, 115, 114, 116] 0).2
      (by rw [findBestMatchZB]; decide)⟩

/-- C9. When a rename call fails for one subtitle, its result records the
error with `renamed = false`, is still emitted, and `Match` continues with
all remaining subtitles, returning the full result sequence. -/
theorem match_rename_failure {σ ε : Type} (vsm : VideoSubtitleMatcher)
    (rf : σ → List Nat → List Nat → σ × Option ε) (vfs : List (List Nat))
    (pre post : List (List Nat)) (p : List Nat) (s0 st2 : σ) (e : ε)
    (hdry : vsm.dryRun = false)
    (hth : vsm.similarityThreshold ≤ (findBestMatch p vfs).2)
    (hne : p ≠ newSubtitlePathFor p (findBestMatch p vfs).1)
    (hrf : rf (Match vsm rf vfs pre s0).2 p
      (newSubtitlePathFor p (findBestMatch p vfs).1) = (st2, some e)) :
    Match vsm rf vfs (pre ++ p :: post) s0 =
      ((Match vsm rf vfs pre s0).1 ++
        ⟨p, (findBestMatch p vfs).1, newSubtitlePathFor p (findBestMatch p vfs).1,
          (findBestMatch p vfs).2, false, some e⟩ :: (Match vsm rf vfs post st2).1,
        (Match vsm rf vfs post st2).2) := by
  rw [match_append, match_cons,
    processSubtitle_rename_fail vsm rf vfs _ p hdry hth hne st2 e hrf]
  simp

/-- Witness for C9: a failing oracle on subtitle `a b.srt` and video
`a_b.mkv` with threshold 1, no dry run: the error 7 lands in the result. -/
theorem match_rename_failure_point :
    Match (testMatcher 1 false false) failRename [[97, 95, 98, 46, 109, 107, 118]]
      ([] ++ [97, 32, 98, 46, 115, 114, 116] :: []) 0 =
      ((Match (testMatcher 1 false false) failRename
          [[97, 95, 98, 46, 109, 107, 118]] [] 0).1 ++
        ⟨[97, 32, 98, 46, 115, 114, 116],
          (findBestMatch [97, 32, 98, 46, 115, 114, 116]
            [[97, 95, 98, 46, 109, 107, 118]]).1,
          newSubtitlePathFor [97, 32, 98, 46, 115, 114, 116]
            (findBestMatch [97, 32, 98, 46, 115, 114, 116]
              [[97, 95, 98, 46, 109, 107, 118]]).1,
          (findBestMatch [97, 32, 98, 46, 115, 114, 116]
            [[97, 95, 98, 46, 109, 107, 118]]).2, false, some 7⟩ ::
          (Match (testMatcher 1 false false) failRename
            [[97, 95, 98, 46, 109, 107, 118]] [] 1).1,
        (Match (testMatcher 1 false false) failRename
          [[97, 95, 98, 46, 109, 107, 118]] [] 1).2) :=
  match_rename_failure (testMatcher 1 false false) failRename
    [[97, 95, 98, 46, 109, 107, 118]] [] [] [97, 32, 98, 46, 115, 114, 116] 0 1 7
    rfl (by decide) (by decide) rfl

/-- C5. The spec's worked example: both stems normalize to `how to code`,
their similarity is exactly 1, and the defaulted matcher computes the new
subtitle path `vids/How_to_code_[ABC123].srt` — the subtitle's directory
joined with the video base stem plus the subtitle's `.srt` extension. -/
theorem example_pipeline :
    normalizeTitle exSubStem = howToCode ∧
    normalizeTitle exVidStem = howToCode ∧
    calculateSimilarity (normalizeTitle exSubStem) (normalizeTitle exVidStem) = 1 ∧
    (Match (New [46] []) noRename [exVidPath] [exSubPath] 0).1.map
      (fun r => r.newSubtitlePath) = [exNewPath] ∧
    exNewPath = joinPath (dirPath exSubPath)
      (trimSuffix (basePath exVidPath) (extPath exVidPath) ++ extPath exSubPath) := by
  refine ⟨by decide, by decide, ?_, ?_, by decide⟩
  · rw [show normalizeTitle exSubStem = howToCode from by decide,
      show normalizeTitle exVidStem = howToCode from by decide]
    simp [calculateSimilarity]
  · have hsingle : (Match (New [46] []) noRename [exVidPath] [exSubPath] 0).1 =
        (processSubtitle (New [46] []) noRename [exVidPath] 0 exSubPath).1 := by
      rw [match_cons]
      simp [match_nil]
    have hbm : findBestMatch exSubPath [exVidPath] = (exVidPath, 1) := by decide
    have hth : (New [46] []).similarityThreshold ≤ (findBestMatch exSubPath [exVidPath]).2 := by
      rw [hbm, show (New [46] []).similarityThreshold = 3 / 5 from rfl]
      norm_num
    have hskip : ¬((New [46] []).ignoreExisting = true ∧
        exSubPath = newSubtitlePathFor exSubPath (findBestMatch exSubPath [exVidPath]).1) := by
      intro hc
      exact absurd hc.1 (by decide)
    rw [hsingle, processSubtitle_dry (New [46] []) noRename [exVidPath] 0 exSubPath hth hskip rfl]
    rw [hbm]
    simp only [List.map_cons, List.map_nil]
    rw [show newSubtitlePathFor exSubPath ((exVidPath, (1 : ℚ))).1 = exNewPath from by decide]

/-- A byte whose lower-cased form is not a lower-case letter was unchanged
by lower-casing. -/
theorem lowerByte_eq_of_not_letter {c x : Nat} (hx : ¬(97 ≤ x ∧ x ≤ 122))
    (h : lowerByte c = x) : c = x := by
  unfold lowerByte at h
  split_ifs at h with hc
  · omega
  · exact h

/-- Lower-casing is idempotent on bytes. -/
theorem lowerByte_idem (b : Nat) : lowerByte (lowerByte b) = lowerByte b := by
  unfold lowerByte
  split_ifs with h1 h2 <;> omega

/-- Lower-casing byte strings is idempotent. -/
theorem toLowerBytes_idem (l : List Nat) : toLowerBytes (toLowerBytes l) = toLowerBytes l := by
  induction l with
  | nil => rfl
  | cons b t ih =>
    simp only [toLowerBytes, List.map_cons] at ih ⊢
    rw [lowerByte_idem, ih]

/-- Lower-casing does not change trim-whitespace status. -/
theorem isTrimSpace_lowerByte (b : Nat) : isTrimSpace (lowerByte b) = isTrimSpace b := by
  unfold lowerByte
  split_ifs with h
  · have h1 : isTrimSpace (b + 32) = false := by simp [isTrimSpace]; omega
    have h2 : isTrimSpace b = false := by simp [isTrimSpace]; omega
    rw [h1, h2]
  · rfl

/-- Lower-casing does not change regex-whitespace status. -/
theorem isPerlSpace_lowerByte (b : Nat) : isPerlSpace (lowerByte b) = isPerlSpace b := by
  unfold lowerByte
  split_ifs with h
  · have h1 : isPerlSpace (b + 32) = false := by simp [isPerlSpace]; omega
    have h2 : isPerlSpace b = false := by simp [isPerlSpace]; omega
    rw [h1, h2]
  · rfl

/-- Regex whitespace is trim whitespace. -/
theorem isPerlSpace_false_of_trim {b : Nat} (h : isTrimSpace b = false) :
    isPerlSpace b = false := by
  simp only [isTrimSpace, Bool.or_eq_false_iff, Bool.and_eq_false_iff] at h
  simp only [isPerlSpace, Bool.or_eq_false_iff]
  simp only [beq_eq_false_iff_ne, ne_eq, decide_eq_false_iff_not, not_le] at h ⊢
  omega

/-- The function `tagClose` returns a suffix of its argument. -/
theorem tagClose_suffix : ∀ (t r : List Nat), tagClose t = some r → r <:+ t := by
  intro t
  induction t with
  | nil => intro r h; exact absurd h (by simp [tagClose])
  | cons b u ih =>
    intro r h
    rw [tagClose] at h
    split_ifs at h with h1 h2
    · injection h with h3
      obtain rfl := h3
      exact List.suffix_cons b u
    · exact (ih r h).trans (List.suffix_cons b u)

/-- The function `matchTag` returns a suffix of its argument. -/
theorem matchTag_suffix : ∀ (l r : List Nat), matchTag l = some r → r <:+ l := by
  intro l r h
  unfold matchTag at h
  split at h
  · next c t =>
    split_ifs at h with h1
    exact (tagClose_suffix t r h).trans
      ((List.suffix_cons _ t).trans (List.suffix_cons 91 _))
  · simp at h

/-- Bytes of the tag-stripped string are bytes of the input. -/
theorem stripTagsAux_subset : ∀ (fuel : Nat) (l : List Nat) (b : Nat),
    b ∈ stripTagsAux fuel l → b ∈ l := by
  intro fuel
  induction fuel with
  | zero => intro l b h; cases l <;> simpa [stripTagsAux] using h
  | succ f ih =>
    intro l b h
    cases l with
    | nil => simpa [stripTagsAux] using h
    | cons c t =>
      rw [stripTagsAux] at h
      cases hm : matchTag (c :: t) with
      | some rest =>
        rw [hm] at h
        exact (matchTag_suffix (c :: t) rest hm).subset (ih rest b h)
      | none =>
        rw [hm] at h
        rcases List.mem_cons.mp h with rfl | h2
        · exact List.mem_cons_self b t
        · exact List.mem_cons_of_mem c (ih t b h2)

/-- Bytes of a replacement result come from the string or the replacement. -/
theorem replaceAllAux_subset (p r : List Nat) : ∀ (fuel : Nat) (s : List Nat) (b : Nat),
    b ∈ replaceAllAux p r fuel s → b ∈ s ∨ b ∈ r := by
  intro fuel
  induction fuel with
  | zero => intro s b h; cases s <;> simp_all [replaceAllAux]
  | succ f ih =>
    intro s b h
    cases s with
    | nil => simp [replaceAllAux] at h
    | cons c t =>
      rw [replaceAllAux] at h
      split_ifs at h with hp
      · rcases List.mem_append.mp h with h2 | h2
        · exact Or.inr h2
        · rcases ih _ b h2 with h3 | h3
          · exact Or.inl (List.mem_cons_of_mem c (List.drop_subset _ t h3))
          · exact Or.inr h3
      · rcases List.mem_cons.mp h with rfl | h2
        · exact Or.inl (List.mem_cons_self b t)
        · rcases ih t b h2 with h3 | h3
          · exact Or.inl (List.mem_cons_of_mem c h3)
          · exact Or.inr h3

/-- Bytes of the trimmed string are bytes of the input. -/
theorem trimSpace_subset : ∀ (l : List Nat) (x : Nat),
    x ∈ trimSpace l → x ∈ l := by
  intro l x h
  unfold trimSpace at h
  have hpre := List.rdropWhile_prefix isTrimSpace (List.dropWhile isTrimSpace l)
  have hsuf : List.dropWhile isTrimSpace l <:+ l := List.dropWhile_suffix isTrimSpace
  exact hsuf.subset (hpre.subset h)

/-- Bytes of the collapsed string are spaces or bytes of the input. -/
theorem collapseAux_subset : ∀ (l : List Nat) (flag : Bool) (b : Nat),
    b ∈ collapseAux flag l → b = 32 ∨ b ∈ l := by
  intro l
  induction l with
  | nil => intro flag b h; simp [collapseAux] at h
  | cons c t ih =>
    intro flag b h
    rw [collapseAux] at h
    split_ifs at h with h1 h2
    · rcases ih true b h with h3 | h3
      · exact Or.inl h3
      · exact Or.inr (List.mem_cons_of_mem c h3)
    · rcases List.mem_cons.mp h with rfl | h3
      · exact Or.inl rfl
      · rcases ih true b h3 with h4 | h4
        · exact Or.inl h4
        · exact Or.inr (List.mem_cons_of_mem c h4)
    · rcases List.mem_cons.mp h with rfl | h3
      · exact Or.inr (List.mem_cons_self b t)
      · rcases ih false b h3 with h4 | h4
        · exact Or.inl h4
        · exact Or.inr (List.mem_cons_of_mem c h4)

/-- A string not headed by an opening bracket matches no bracketed tag. -/
theorem matchTag_eq_none {b : Nat} (t : List Nat) (hb : b ≠ 91) :
    matchTag (b :: t) = none := by
  unfold matchTag
  split
  · next c u heq =>
    injection heq with h1 _
    exact absurd h1 hb
  · rfl

/-- Tag stripping leaves a bracket-free string unchanged. -/
theorem stripTagsAux_id : ∀ (fuel : Nat) (l : List Nat), (∀ b ∈ l, b ≠ 91) →
    stripTagsAux fuel l = l := by
  intro fuel
  induction fuel with
  | zero => intro l _; cases l <;> rfl
  | succ f ih =>
    intro l h
    cases l with
    | nil => rfl
    | cons c t =>
      rw [stripTagsAux, matchTag_eq_none t (h c (List.mem_cons_self c t))]
      rw [ih t fun b hb => h b (List.mem_cons_of_mem c hb)]

/-- Tag stripping leaves a bracket-free string unchanged. -/
theorem stripTags_id (l : List Nat) (h : ∀ b ∈ l, b ≠ 91) : stripTags l = l :=
  stripTagsAux_id l.length l h

/-- Replacement of a pattern containing a byte the string lacks is the
identity. -/
theorem replaceAllAux_id (p r : List Nat) (b0 : Nat) (hb : b0 ∈ p) :
    ∀ (fuel : Nat) (s : List Nat), b0 ∉ s → replaceAllAux p r fuel s = s := by
  intro fuel
  induction fuel with
  | zero => intro s _; cases s <;> rfl
  | succ f ih =>
    intro s hs
    cases s with
    | nil => rfl
    | cons c t =>
      rw [replaceAllAux]
      rw [if_neg]
      · rw [ih t fun h2 => hs (List.mem_cons_of_mem c h2)]
      · intro hp
        have hp2 := List.isPrefixOf_iff_prefix.mp hp
        exact hs (hp2.subset hb)

/-- The function `replaceAll` of a pattern containing a byte the string lacks is the
identity. -/
theorem replaceAll_id (s p r : List Nat) (b0 : Nat) (hb : b0 ∈ p) (hs : b0 ∉ s) :
    replaceAll s p r = s :=
  replaceAllAux_id p r b0 hb s.length s hs

/-- After replacing the single-byte pattern `[b]` by a replacement not
containing `b`, the byte `b` is gone (with enough fuel). -/
theorem replaceAllAux_single_out (b : Nat) (r : List Nat) (hr : b ∉ r) :
    ∀ (fuel : Nat) (s : List Nat), s.length ≤ fuel →
      b ∉ replaceAllAux [b] r fuel s := by
  intro fuel
  induction fuel with
  | zero =>
    intro s hs
    rw [List.length_eq_zero.mp (Nat.le_zero.mp hs)]
    simp [replaceAllAux]
  | succ f ih =>
    intro s hs
    cases s with
    | nil => simp [replaceAllAux]
    | cons c t =>
      rw [replaceAllAux]
      have hlen : t.length ≤ f := by
        simpa using Nat.succ_le_succ_iff.mp hs
      by_cases hc : ([b] : List Nat).isPrefixOf (c :: t)
      · rw [if_pos hc]
        intro hmem
        rcases List.mem_append.mp hmem with h2 | h2
        · exact hr h2
        · have : List.drop ([b].length - 1) t = t := by simp
          rw [this] at h2
          exact ih t hlen h2
      · rw [if_neg hc]
        intro hmem
        rcases List.mem_cons.mp hmem with rfl | h2
        · exact hc (by simp [List.isPrefixOf])
        · exact ih t hlen h2

/-- The underscore byte is absent after the underscore-to-space step. -/
theorem replaceAll_underscore_out (s : List Nat) : 95 ∉ replaceAll s [95] [32] :=
  replaceAllAux_single_out 95 [32] (by decide) s.length s le_rfl

/-- The function `dropWhile` is the identity when the head does not satisfy the
predicate. -/
theorem dropWhile_eq_self_of_head? (p : Nat → Bool) (l : List Nat)
    (h : ∀ a, l.head? = some a → p a = false) : List.dropWhile p l = l := by
  cases l with
  | nil => rfl
  | cons b t =>
    rw [List.dropWhile_cons, h b rfl]
    simp

/-- The function `rdropWhile` is the identity when the last byte does not satisfy the
predicate. -/
theorem rdropWhile_eq_self_of_getLast? (p : Nat → Bool) (l : List Nat)
    (h : ∀ a, l.getLast? = some a → p a = false) : List.rdropWhile p l = l := by
  rw [List.rdropWhile, dropWhile_eq_self_of_head? p l.reverse, List.reverse_reverse]
  intro a ha
  rw [List.head?_reverse] at ha
  exact h a ha

/-- The function `trimSpace` is the identity when neither end byte is whitespace. -/
theorem trimSpace_eq_self (l : List Nat)
    (hh : ∀ a, l.head? = some a → isTrimSpace a = false)
    (hl : ∀ a, l.getLast? = some a → isTrimSpace a = false) : trimSpace l = l := by
  rw [trimSpace, dropWhile_eq_self_of_head? isTrimSpace l hh,
    rdropWhile_eq_self_of_getLast? isTrimSpace l hl]

/-- The head of a `dropWhile` result does not satisfy the predicate. -/
theorem head?_dropWhile_not (p : Nat → Bool) : ∀ (l : List Nat) (a : Nat),
    (List.dropWhile p l).head? = some a → p a = false := by
  intro l
  induction l with
  | nil => intro a h; simp [List.dropWhile] at h
  | cons b t ih =>
    intro a h
    rw [List.dropWhile_cons] at h
    by_cases hb : p b
    · rw [if_pos hb] at h
      exact ih a h
    · rw [if_neg hb] at h
      injection h with h2
      obtain rfl := h2
      exact Bool.eq_false_iff.mpr hb

/-- The head of the trimmed string is not whitespace. -/
theorem head?_trimSpace_not (s : List Nat) (a : Nat)
    (h : (trimSpace s).head? = some a) : isTrimSpace a = false := by
  unfold trimSpace at h
  obtain ⟨u, hu⟩ := List.rdropWhile_prefix isTrimSpace (List.dropWhile isTrimSpace s)
  apply head?_dropWhile_not isTrimSpace s a
  rw [← hu]
  cases hcase : List.rdropWhile isTrimSpace (List.dropWhile isTrimSpace s) with
  | nil => rw [hcase] at h; simp at h
  | cons c v =>
    rw [hcase] at h
    injection h with h2
    obtain rfl := h2
    simp

/-- The last byte of the trimmed string is not whitespace. -/
theorem getLast?_trimSpace_not (s : List Nat) (a : Nat)
    (h : (trimSpace s).getLast? = some a) : isTrimSpace a = false := by
  unfold trimSpace List.rdropWhile at h
  rw [← List.head?_reverse, List.reverse_reverse] at h
  exact head?_dropWhile_not isTrimSpace _ a h

/-- The function `getLast?` ignores a fresh head when the tail is non-empty. -/
theorem getLast?_cons_of_ne_nil {y : Nat} {X : List Nat} (h : X ≠ []) :
    (y :: X).getLast? = X.getLast? := by
  cases X with
  | nil => exact absurd rfl h
  | cons c u => exact List.getLast?_cons_cons

/-- The collapse step keeps a non-whitespace head byte. -/
theorem collapseAux_head? (l : List Nat) (a : Nat) (hl : l.head? = some a)
    (ha : isPerlSpace a = false) : (collapseAux false l).head? = some a := by
  cases l with
  | nil => simp at hl
  | cons b t =>
    injection hl with h2
    obtain rfl := h2
    rw [collapseAux, if_neg (by simp [ha])]
    rfl

/-- The collapse step keeps a non-whitespace last byte. -/
theorem collapseAux_getLast? : ∀ (l : List Nat) (flag : Bool) (a : Nat),
    l.getLast? = some a → isPerlSpace a = false →
    (collapseAux flag l).getLast? = some a := by
  intro l
  induction l with
  | nil => intro flag a h _; simp at h
  | cons b t ih =>
    intro flag a hl ha
    cases t with
    | nil =>
      simp only [List.getLast?_singleton, Option.some_inj] at hl
      obtain rfl := hl
      rw [collapseAux, if_neg (by simp [ha])]
      rfl
    | cons c u =>
      rw [List.getLast?_cons_cons] at hl
      have hne : ∀ flag2 : Bool, collapseAux flag2 (c :: u) ≠ [] := by
        intro flag2 hemp
        have := ih flag2 a hl ha
        rw [hemp] at this
        simp at this
      rw [collapseAux]
      by_cases hb : isPerlSpace b = true
      · rw [if_pos hb]
        cases flag with
        | true =>
          rw [if_pos rfl]
          exact ih true a hl ha
        | false =>
          rw [if_neg Bool.false_ne_true]
          rw [getLast?_cons_of_ne_nil (hne true)]
          exact ih true a hl ha
      · rw [if_neg hb]
        rw [getLast?_cons_of_ne_nil (hne false)]
        exact ih false a hl ha

/-- Collapsing whitespace commutes with lower-casing. -/
theorem collapseAux_map_lower : ∀ (l : List Nat) (flag : Bool),
    collapseAux flag (toLowerBytes l) = toLowerBytes (collapseAux flag l) := by
  intro l
  induction l with
  | nil => intro flag; rfl
  | cons b t ih =>
    intro flag
    simp only [toLowerBytes] at ih ⊢
    simp only [List.map_cons]
    rw [collapseAux, collapseAux, isPerlSpace_lowerByte b]
    by_cases hb : isPerlSpace b = true
    · rw [if_pos hb, if_pos hb]
      cases flag with
      | true =>
        rw [if_pos rfl, if_pos rfl]
        exact ih true
      | false =>
        rw [if_neg Bool.false_ne_true, if_neg Bool.false_ne_true]
        rw [List.map_cons]
        rw [show lowerByte 32 = 32 from by decide]
        rw [ih true]
    · rw [if_neg hb, if_neg hb]
      rw [List.map_cons]
      rw [ih false]

/-- Collapsing whitespace runs is idempotent. -/
theorem collapseAux_idem : ∀ (l : List Nat) (flag : Bool),
    collapseAux flag (collapseAux flag l) = collapseAux flag l := by
  intro l
  induction l with
  | nil => intro flag; rfl
  | cons b t ih =>
    intro flag
    by_cases hb : isPerlSpace b = true
    · cases flag with
      | true =>
        rw [collapseAux, if_pos hb, if_pos rfl]
        exact ih true
      | false =>
        rw [collapseAux, if_pos hb, if_neg Bool.false_ne_true]
        rw [collapseAux, if_pos (show isPerlSpace 32 = true from by decide),
          if_neg Bool.false_ne_true]
        rw [ih true]
    · rw [collapseAux, if_neg hb, collapseAux, if_neg hb]
      rw [ih false]

/-- Bytes of `replaceAll` come from the string or the replacement. -/
theorem replaceAll_subset (s p r : List Nat) (b : Nat) (h : b ∈ replaceAll s p r) :
    b ∈ s ∨ b ∈ r :=
  replaceAllAux_subset p r s.length s b h

/-- Bytes of `stripTags` come from the input. -/
theorem stripTags_subset (l : List Nat) (b : Nat) (h : b ∈ stripTags l) : b ∈ l :=
  stripTagsAux_subset l.length l b h

/-- Bytes of `collapseSpaces` are spaces or input bytes. -/
theorem collapseSpaces_subset (l : List Nat) (b : Nat) (h : b ∈ collapseSpaces l) :
    b = 32 ∨ b ∈ l :=
  collapseAux_subset l false b h

/-- Every byte of a normalized title is the lower-casing of an input byte, a
space, or a question mark. -/
theorem mem_normalizeTitle (x : List Nat) (b : Nat) (h : b ∈ normalizeTitle x) :
    (∃ c ∈ x, lowerByte c = b) ∨ b = 32 ∨ b = 63 := by
  have h2 : b ∈ toLowerBytes (collapseSpaces (trimSpace (replaceAll (replaceAll
      (replaceAll (replaceAll (stripTags x) litDualDouble []) litYouTube [])
      [95] [32]) fullWidthQM [63]))) := h
  rw [toLowerBytes] at h2
  obtain ⟨c, hc, rfl⟩ := List.mem_map.mp h2
  rcases collapseSpaces_subset _ _ hc with rfl | hc2
  · exact Or.inr (Or.inl (by decide))
  · have hc3 := trimSpace_subset _ _ hc2
    rcases replaceAll_subset _ _ _ _ hc3 with hc4 | hq
    · rcases replaceAll_subset _ _ _ _ hc4 with hc5 | hu
      · rcases replaceAll_subset _ _ _ _ hc5 with hc6 | hy
        · rcases replaceAll_subset _ _ _ _ hc6 with hc7 | hd
          · exact Or.inl ⟨c, stripTags_subset _ _ hc7, rfl⟩
          · simp at hd
        · simp at hy
      · rw [List.mem_singleton] at hu
        obtain rfl := hu
        exact Or.inr (Or.inl (by decide))
    · rw [List.mem_singleton] at hq
      obtain rfl := hq
      exact Or.inr (Or.inr (by decide))

/-- A bracket never appears in the normalized form of a bracket-free
string. -/
theorem not_mem_normalizeTitle_91 (x : List Nat) (h91 : 91 ∉ x) :
    91 ∉ normalizeTitle x := by
  intro h
  rcases mem_normalizeTitle x 91 h with ⟨c, hc, he⟩ | h32 | h63
  · have hc91 : c = 91 := lowerByte_eq_of_not_letter (by decide) he
    exact h91 (hc91 ▸ hc)
  · exact absurd h32 (by decide)
  · exact absurd h63 (by decide)

/-- No underscore survives normalization. -/
theorem not_mem_normalizeTitle_95 (x : List Nat) : 95 ∉ normalizeTitle x := by
  intro h
  have h2 : 95 ∈ toLowerBytes (collapseSpaces (trimSpace (replaceAll (replaceAll
      (replaceAll (replaceAll (stripTags x) litDualDouble []) litYouTube [])
      [95] [32]) fullWidthQM [63]))) := h
  rw [toLowerBytes] at h2
  obtain ⟨c, hc, he⟩ := List.mem_map.mp h2
  have hc95 : c = 95 := lowerByte_eq_of_not_letter (by decide) he
  obtain rfl := hc95
  rcases collapseSpaces_subset _ _ hc with h32 | hc2
  · exact absurd h32 (by decide)
  · have hc3 := trimSpace_subset _ _ hc2
    rcases replaceAll_subset _ _ _ _ hc3 with hc4 | hq
    · exact replaceAll_underscore_out _ hc4
    · exact absurd (List.mem_singleton.mp hq) (by decide)

/-- Trimming fixes the lower-cased, collapsed, trimmed tail of the
normalization pipeline. -/
theorem post_pipeline_trim (s : List Nat) :
    trimSpace (toLowerBytes (collapseSpaces (trimSpace s))) =
      toLowerBytes (collapseSpaces (trimSpace s)) := by
  apply trimSpace_eq_self
  · intro a ha
    rw [toLowerBytes, List.head?_map] at ha
    cases hc : (collapseSpaces (trimSpace s)).head? with
    | none => rw [hc] at ha; simp at ha
    | some c =>
      rw [hc] at ha
      simp only [Option.map_some'] at ha
      injection ha with ha2
      obtain rfl := ha2
      rw [isTrimSpace_lowerByte]
      cases ht : trimSpace s with
      | nil => rw [ht] at hc; simp [collapseSpaces, collapseAux] at hc
      | cons d t2 =>
        have hd : isTrimSpace d = false := head?_trimSpace_not s d (by rw [ht]; rfl)
        have h3 : (collapseSpaces (trimSpace s)).head? = some d := by
          rw [ht]
          exact collapseAux_head? (d :: t2) d rfl (isPerlSpace_false_of_trim hd)
        rw [h3] at hc
        injection hc with hc2
        rw [← hc2]
        exact hd
  · intro a ha
    rw [toLowerBytes, List.getLast?_map] at ha
    cases hc : (collapseSpaces (trimSpace s)).getLast? with
    | none => rw [hc] at ha; simp at ha
    | some c =>
      rw [hc] at ha
      simp only [Option.map_some'] at ha
      injection ha with ha2
      obtain rfl := ha2
      rw [isTrimSpace_lowerByte]
      cases ht : trimSpace s with
      | nil => rw [ht] at hc; simp [collapseSpaces, collapseAux] at hc
      | cons d t2 =>
        obtain ⟨g, hg⟩ : ∃ g, (d :: t2).getLast? = some g :=
          ⟨(d :: t2).getLast (by simp), List.getLast?_eq_getLast_of_ne_nil (by simp)⟩
        have hg2 : isTrimSpace g = false := getLast?_trimSpace_not s g (by rw [ht]; exact hg)
        have h3 : (collapseSpaces (trimSpace s)).getLast? = some g := by
          unfold collapseSpaces
          exact collapseAux_getLast? (trimSpace s) false g (by rw [ht]; exact hg)
            (isPerlSpace_false_of_trim hg2)
        rw [h3] at hc
        injection hc with hc2
        rw [← hc2]
        exact hg2

/-- Collapsing fixes the lower-cased, collapsed, trimmed tail of the
normalization pipeline. -/
theorem post_pipeline_collapse (s : List Nat) :
    collapseSpaces (toLowerBytes (collapseSpaces (trimSpace s))) =
      toLowerBytes (collapseSpaces (trimSpace s)) := by
  show collapseAux false (toLowerBytes (collapseAux false (trimSpace s))) =
    toLowerBytes (collapseAux false (trimSpace s))
  rw [collapseAux_map_lower, collapseAux_idem]

/-- The trimmed string is an infix of the input. -/
theorem trimSpace_isInfix (l : List Nat) : trimSpace l <:+: l := by
  have h1 : trimSpace l <+: List.dropWhile isTrimSpace l :=
    List.rdropWhile_prefix isTrimSpace _
  have h2 : List.dropWhile isTrimSpace l <:+ l := List.dropWhile_suffix isTrimSpace
  exact h1.isInfix.trans h2.isInfix

/-- Replacement of a pattern that never occurs in the string is the
identity. -/
theorem replaceAllAux_id_of_no_occ (p r : List Nat) : ∀ (fuel : Nat) (s : List Nat),
    ¬ p <:+: s → replaceAllAux p r fuel s = s := by
  intro fuel
  induction fuel with
  | zero => intro s _; cases s <;> rfl
  | succ f ih =>
    intro s hs
    cases s with
    | nil => rfl
    | cons c t =>
      have hnp : ¬ p.isPrefixOf (c :: t) = true := by
        intro hm
        have hm2 := List.isPrefixOf_iff_prefix.mp hm
        exact hs hm2.isInfix
      rw [replaceAllAux, if_neg hnp, ih t fun hi => hs (List.infix_cons hi)]

/-- Replacement of a pattern that never occurs in the string is the
identity. -/
theorem replaceAll_id_of_no_occ (s p r : List Nat) (h : ¬ p <:+: s) :
    replaceAll s p r = s :=
  replaceAllAux_id_of_no_occ p r s.length s h

/-- A prefix of the question-mark replacement output that contains no `?`
byte is a prefix of the input: the scan only ever prepends original bytes
or the replacement byte 63. -/
theorem prefix_reflect_replaceQM : ∀ (fuel : Nat) (q t : List Nat), 63 ∉ q →
    q <+: replaceAllAux fullWidthQM [63] fuel t → q <+: t := by
  intro fuel
  induction fuel with
  | zero =>
    intro q t _ h
    cases t with
    | nil => exact h
    | cons d u => exact h
  | succ f ih =>
    intro q t hq h
    cases t with
    | nil => exact h
    | cons d u =>
      rw [replaceAllAux] at h
      split_ifs at h with hm
      · cases q with
        | nil => exact List.nil_prefix
        | cons c q2 =>
          rw [List.singleton_append, List.cons_prefix_cons] at h
          exfalso
          apply hq
          rw [← h.1]
          exact List.mem_cons_self c q2
      · cases q with
        | nil => exact List.nil_prefix
        | cons c q2 =>
          rw [List.cons_prefix_cons] at h
          obtain ⟨rfl, h2⟩ := h
          have h3 := ih q2 u (fun hmem => hq (List.mem_cons_of_mem _ hmem)) h2
          exact List.cons_prefix_cons.mpr ⟨rfl, h3⟩

/-- The question-mark replacement output contains no occurrence of the
full-width question mark: existing occurrences are replaced and the
inserted `?` byte can merge no new one. -/
theorem replaceAllQM_no_occ : ∀ (fuel : Nat) (s : List Nat), s.length ≤ fuel →
    ¬ fullWidthQM <:+: replaceAllAux fullWidthQM [63] fuel s := by
  intro fuel
  induction fuel with
  | zero =>
    intro s hs h
    rw [List.length_eq_zero.mp (Nat.le_zero.mp hs)] at h
    rw [show replaceAllAux fullWidthQM [63] 0 ([] : List Nat) = [] from rfl,
      List.infix_nil] at h
    exact absurd h (by decide)
  | succ f ih =>
    intro s hs h
    cases s with
    | nil =>
      rw [show replaceAllAux fullWidthQM [63] (f + 1) ([] : List Nat) = [] from rfl,
        List.infix_nil] at h
      exact absurd h (by decide)
    | cons d u =>
      have hu : u.length ≤ f := by simpa using Nat.succ_le_succ_iff.mp hs
      rw [replaceAllAux] at h
      split_ifs at h with hm
      · rw [List.singleton_append] at h
        rcases List.infix_cons_iff.mp h with hp | hi
        · rw [show fullWidthQM = 239 :: [188, 159] from rfl, List.cons_prefix_cons] at hp
          exact absurd hp.1 (by decide)
        · have hlen : (List.drop (fullWidthQM.length - 1) u).length ≤ f := by
            rw [List.length_drop]
            omega
          exact ih _ hlen hi
      · rcases List.infix_cons_iff.mp h with hp | hi
        · rw [show fullWidthQM = 239 :: [188, 159] from rfl, List.cons_prefix_cons] at hp
          obtain ⟨hd, hp2⟩ := hp
          have h2 : ([188, 159] : List Nat) <+: u :=
            prefix_reflect_replaceQM f [188, 159] u (by decide) hp2
          apply hm
          rw [List.isPrefixOf_iff_prefix,
            show fullWidthQM = 239 :: [188, 159] from rfl, List.cons_prefix_cons]
          exact ⟨hd, h2⟩
        · exact ih u hu hi

/-- A prefix of the collapse output whose bytes are neither regex
whitespace nor the space byte is a prefix of the input. -/
theorem collapse_prefix_reflect : ∀ (q : List Nat),
    (∀ c ∈ q, isPerlSpace c = false ∧ c ≠ 32) →
    ∀ (t : List Nat), q <+: collapseAux false t → q <+: t := by
  intro q
  induction q with
  | nil => intro _ t _; exact List.nil_prefix
  | cons c q2 ih =>
    intro hq t h
    cases t with
    | nil =>
      rw [show collapseAux false ([] : List Nat) = [] from rfl, List.prefix_nil] at h
      exact absurd h (by simp)
    | cons d u =>
      rw [collapseAux] at h
      by_cases hd : isPerlSpace d = true
      · rw [if_pos hd, if_neg Bool.false_ne_true, List.cons_prefix_cons] at h
        exact absurd h.1 (hq c (List.mem_cons_self c q2)).2
      · rw [if_neg hd, List.cons_prefix_cons] at h
        obtain ⟨rfl, h2⟩ := h
        exact List.cons_prefix_cons.mpr
          ⟨rfl, ih (fun e he => hq e (List.mem_cons_of_mem _ he)) u h2⟩

/-- An occurrence, in the collapse output, of a pattern whose bytes are
neither regex whitespace nor the space byte is an occurrence in the input:
collapsing never brings such bytes together. -/
theorem infix_collapse_reflect (q : List Nat)
    (hq : ∀ c ∈ q, isPerlSpace c = false ∧ c ≠ 32) :
    ∀ (l : List Nat) (flag : Bool), q <:+: collapseAux flag l → q <:+: l := by
  intro l
  induction l with
  | nil =>
    intro flag h
    rw [show collapseAux flag ([] : List Nat) = [] from rfl, List.infix_nil] at h
    rw [h]
  | cons b t ih =>
    intro flag h
    by_cases hb : isPerlSpace b = true
    · rw [collapseAux, if_pos hb] at h
      cases flag with
      | true =>
        rw [if_pos rfl] at h
        exact List.infix_cons (ih true h)
      | false =>
        rw [if_neg Bool.false_ne_true] at h
        rcases List.infix_cons_iff.mp h with hp | hi
        · cases q with
          | nil => exact List.nil_prefix.isInfix
          | cons c q2 =>
            rw [List.cons_prefix_cons] at hp
            exact absurd hp.1 (hq c (List.mem_cons_self c q2)).2
        · exact List.infix_cons (ih true hi)
    · rw [collapseAux, if_neg hb] at h
      rcases List.infix_cons_iff.mp h with hp | hi
      · cases q with
        | nil => exact List.nil_prefix.isInfix
        | cons c q2 =>
          rw [List.cons_prefix_cons] at hp
          obtain ⟨rfl, hp2⟩ := hp
          have h2 := collapse_prefix_reflect q2
            (fun e he => hq e (List.mem_cons_of_mem _ he)) t hp2
          exact (List.cons_prefix_cons.mpr ⟨rfl, h2⟩).isInfix
      · exact List.infix_cons (ih false hi)

/-- An occurrence of the full-width question mark in a lower-cased string
is an occurrence in the original: each of its three bytes is fixed by
lower-casing and is the lower image only of itself. -/
theorem infix_toLower_qm : ∀ (l : List Nat), fullWidthQM <:+: toLowerBytes l →
    fullWidthQM <:+: l := by
  intro l
  induction l with
  | nil =>
    intro h
    rw [show toLowerBytes [] = [] from rfl, List.infix_nil] at h
    exact absurd h (by decide)
  | cons b t ih =>
    intro h
    rw [show toLowerBytes (b :: t) = lowerByte b :: toLowerBytes t from rfl] at h
    rcases List.infix_cons_iff.mp h with hp | hi
    · rw [show fullWidthQM = 239 :: [188, 159] from rfl, List.cons_prefix_cons] at hp
      obtain ⟨h239, hp2⟩ := hp
      obtain rfl : b = 239 := lowerByte_eq_of_not_letter (by decide) h239.symm
      cases t with
      | nil =>
        rw [show toLowerBytes [] = [] from rfl, List.prefix_nil] at hp2
        exact absurd hp2 (by simp)
      | cons c u =>
        rw [show toLowerBytes (c :: u) = lowerByte c :: toLowerBytes u from rfl,
          List.cons_prefix_cons] at hp2
        obtain ⟨h188, hp3⟩ := hp2
        obtain rfl : c = 188 := lowerByte_eq_of_not_letter (by decide) h188.symm
        cases u with
        | nil =>
          rw [show toLowerBytes [] = [] from rfl, List.prefix_nil] at hp3
          exact absurd hp3 (by simp)
        | cons d w =>
          rw [show toLowerBytes (d :: w) = lowerByte d :: toLowerBytes w from rfl,
            List.cons_prefix_cons] at hp3
          obtain rfl : d = 159 := lowerByte_eq_of_not_letter (by decide) hp3.1.symm
          refine List.IsPrefix.isInfix ?_
          rw [show fullWidthQM = 239 :: [188, 159] from rfl]
          exact List.cons_prefix_cons.mpr ⟨rfl, List.cons_prefix_cons.mpr ⟨rfl,
            List.cons_prefix_cons.mpr ⟨rfl, List.nil_prefix⟩⟩⟩
    · exact List.infix_cons (ih hi)

/-- The full-width question mark never occurs in a normalized title: the
replacement pass removes every occurrence, and trimming, collapsing and
lower-casing cannot assemble a new one. -/
theorem not_infix_qm_normalizeTitle (x : List Nat) :
    ¬ fullWidthQM <:+: normalizeTitle x := by
  intro h
  have h0 : fullWidthQM <:+: toLowerBytes (collapseSpaces (trimSpace (replaceAll
      (replaceAll (replaceAll (replaceAll (stripTags x) litDualDouble [])
      litYouTube []) [95] [32]) fullWidthQM [63]))) := h
  have h1 := infix_toLower_qm _ h0
  have h2 := infix_collapse_reflect fullWidthQM (by decide) _ false h1
  have h3 := h2.trans (trimSpace_isInfix _)
  exact replaceAllQM_no_occ _ _ le_rfl h3

/-- C2 amended: normalization is idempotent on every string containing no
opening bracket byte. -/
theorem normalizeTitle_idem (x : List Nat) (h91 : 91 ∉ x) :
    normalizeTitle (normalizeTitle x) = normalizeTitle x := by
  have h91P := not_mem_normalizeTitle_91 x h91
  have h95P := not_mem_normalizeTitle_95 x
  have s1 : stripTags (normalizeTitle x) = normalizeTitle x :=
    stripTags_id _ fun b hb he => h91P (he ▸ hb)
  have s2 : replaceAll (normalizeTitle x) litDualDouble [] = normalizeTitle x :=
    replaceAll_id _ _ _ 95 (by decide) h95P
  have s3 : replaceAll (normalizeTitle x) litYouTube [] = normalizeTitle x :=
    replaceAll_id _ _ _ 95 (by decide) h95P
  have s4 : replaceAll (normalizeTitle x) [95] [32] = normalizeTitle x :=
    replaceAll_id _ _ _ 95 (by decide) h95P
  have s5 : replaceAll (normalizeTitle x) fullWidthQM [63] = normalizeTitle x :=
    replaceAll_id_of_no_occ _ _ _ (not_infix_qm_normalizeTitle x)
  have key : normalizeTitle (normalizeTitle x) =
      toLowerBytes (collapseSpaces (trimSpace (replaceAll (replaceAll (replaceAll
        (replaceAll (stripTags (normalizeTitle x)) litDualDouble []) litYouTube [])
        [95] [32]) fullWidthQM [63]))) := rfl
  have hx : normalizeTitle x =
      toLowerBytes (collapseSpaces (trimSpace (replaceAll (replaceAll (replaceAll
        (replaceAll (stripTags x) litDualDouble []) litYouTube [])
        [95] [32]) fullWidthQM [63]))) := rfl
  rw [key, s1, s2, s3, s4, s5, hx, post_pipeline_trim, post_pipeline_collapse,
    toLowerBytes_idem]

/-- C2 counterexample: normalization is not idempotent — one pass over
`[[a]b]` leaves the fresh bracketed tag `[b]`, which a second pass
removes. -/
theorem normalizeTitle_idem_counterexample :
    normalizeTitle (normalizeTitle [91, 91, 97, 93, 98, 93]) ≠
      normalizeTitle [91, 91, 97, 93, 98, 93] := by decide

/-- Witness for the amended C2 at the bracket-free string `a_b`. -/
theorem normalizeTitle_idem_point :
    normalizeTitle (normalizeTitle [97, 95, 98]) = normalizeTitle [97, 95, 98] :=
  normalizeTitle_idem [97, 95, 98] (by decide)
